import Mathlib

/-
Verification of the blink(1) command-line encoder (src/blink.c).

The development shallowly embeds the program's parsing and report-encoding
logic.  C `int` values are modelled as `Int` (two's-complement bit views are
taken explicitly modulo 2^32 where the code relies on them), C `unsigned long`
as `Nat` reduced per a 64-bit LP64 `unsigned long`, and the libc numeric
parsers (`strtoul`, `strtof`, `atoi`) are modelled by their documented
C-locale semantics.  `strtof` is modelled over decimal subject sequences with
exact rational arithmetic in place of IEEE binary rounding (hexadecimal,
infinity and NaN subject sequences are immaterial to the properties below).
-/

namespace Blink

/-- C-locale `isspace` characters, as skipped by `strtoul`/`strtof`/`atoi`. -/
def isWSChar (c : Char) : Bool :=
  c == ' ' || c == '\t' || c == '\n' || c == '\x0B' || c == '\x0C' || c == '\r'

/-- Decimal digit test (`'0'`–`'9'`, ASCII 48–57). -/
def isDigitC (c : Char) : Bool :=
  decide (48 ≤ c.toNat ∧ c.toNat ≤ 57)

/-- Hexadecimal digit test, as accepted by `strtoul(_, _, 16)`:
`0`–`9`, `a`–`f` (ASCII 97–102), `A`–`F` (ASCII 65–70). -/
def isCHexDigit (c : Char) : Bool :=
  isDigitC c || decide (97 ≤ c.toNat ∧ c.toNat ≤ 102) ||
    decide (65 ≤ c.toNat ∧ c.toNat ≤ 70)

/-- Numeric value of a hexadecimal digit. -/
def hexDigitVal (c : Char) : Nat :=
  if 97 ≤ c.toNat then c.toNat - 87
  else if 65 ≤ c.toNat then c.toNat - 55
  else c.toNat - 48

/-- Greedily consume decimal digits, returning the accumulated value, the
number of digits consumed, and the remaining characters. -/
def takeDigits : List Char → Nat → Nat → Nat × Nat × List Char
  | c :: cs, acc, n =>
    if isDigitC c then takeDigits cs (acc * 10 + (c.toNat - 48)) (n + 1)
    else (acc, n, c :: cs)
  | [], acc, n => (acc, n, [])

/-- Greedily consume hexadecimal digits, returning the accumulated value, the
number of digits consumed, and the remaining characters. -/
def takeHex : List Char → Nat → Nat → Nat × Nat × List Char
  | c :: cs, acc, n =>
    if isCHexDigit c then takeHex cs (acc * 16 + hexDigitVal c) (n + 1)
    else (acc, n, c :: cs)
  | [], acc, n => (acc, n, [])

/-- Strip an optional leading sign, returning whether it was a minus and the
remaining characters. -/
def signSplit (l : List Char) : Bool × List Char :=
  match l with
  | c :: r =>
    if c = '-' then (true, r)
    else if c = '+' then (false, r)
    else (false, l)
  | [] => (false, [])

/-- Largest value of a 64-bit `unsigned long` (LP64). -/
def ULONG_MAX : Nat := 2 ^ 64 - 1

/-- Test whether the first character is a hexadecimal digit. -/
def headIsHex : List Char → Bool
  | c :: _ => isCHexDigit c
  | [] => false

/-- Strip a `0x`/`0X` prefix when it is followed by a hexadecimal digit
(`strtoul` base-16 semantics: a bare `0x` is parsed as the number `0` with
the `x` left unconsumed). -/
def hexPrefixSplit (l : List Char) : List Char :=
  match l with
  | c0 :: c1 :: r =>
    if c0 = '0' ∧ (c1 = 'x' ∨ c1 = 'X') ∧ headIsHex r = true
    then r else l
  | _ => l

/-- Model of C `strtoul(s, &end, 16)` on a 64-bit `unsigned long`: skip
whitespace, optional sign, optional `0x` prefix, then hexadecimal digits.
Returns the converted value and the unconsumed suffix (the whole input when
no conversion is performed).  Overflowing magnitudes yield `ULONG_MAX`; a
minus sign negates in the unsigned (modular) sense. -/
def strtoul16Core (orig : List Char) : Nat × List Char :=
  let s1 := orig.dropWhile isWSChar
  let sg := signSplit s1
  let body := hexPrefixSplit sg.2
  let d := takeHex body 0 0
  if d.2.1 = 0 then (0, orig)
  else
    let v : Nat :=
      if ULONG_MAX < d.1 then ULONG_MAX
      else if sg.1 then (2 ^ 64 - d.1) % 2 ^ 64
      else d.1
    (v, d.2.2)

/-- String-level wrapper for `strtoul16Core`. -/
def strtoul16 (s : String) : Nat × String :=
  let vr := strtoul16Core s.data
  (vr.1, String.mk vr.2)

/-- The color registry (the `colors[]` table of blink.c, in order). -/
def colors : List (String × Nat) :=
  [("blue",   0x0000FF),
   ("cyan",   0x00FFFF),
   ("green",  0x00FF00),
   ("purple", 0xFF00FF),
   ("red",    0xFF0000),
   ("white",  0xFFFFFF),
   ("yellow", 0xFFFF00)]

/-- Linear scan of an association list, as the lookup loop in `parse_color`. -/
def colorsFind : List (String × Nat) → String → Option Nat
  | [], _ => none
  | p :: ps, s => if p.1 = s then some p.2 else colorsFind ps s

/-- Registry lookup (case-sensitive exact match, in table order). -/
def lookupColor (s : String) : Option Nat :=
  colorsFind colors s

/-- Model of `parse_color` from blink.c: registry lookup first, then
`strtoul(color, &end, 16)` with the range test `value > 0xFFFFFF` and the
full-consumption test `*color != '\0' && *end == '\0'`. -/
def parse_color (color : String) : Int :=
  match lookupColor color with
  | some v => (v : Int)
  | none =>
    let vr := strtoul16 color
    if 0xFFFFFF < vr.1 then -1
    else if color ≠ "" ∧ vr.2 = "" then (vr.1 : Int)
    else -1

/-- Two's-complement 32-bit representation of a C `int` value. -/
def toUInt32Rep (v : Int) : Nat :=
  (v % (2 ^ 32 : Int)).toNat

/-- The `R(rgb)` macro of blink.c on a C `int`. -/
def R (rgb : Int) : Nat := (toUInt32Rep rgb &&& 0xFF0000) >>> 16

/-- The `G(rgb)` macro of blink.c on a C `int`. -/
def G (rgb : Int) : Nat := (toUInt32Rep rgb &&& 0x00FF00) >>> 8

/-- The `B(rgb)` macro of blink.c on a C `int`. -/
def B (rgb : Int) : Nat := (toUInt32Rep rgb &&& 0x0000FF) >>> 0

/-- Parse an optional exponent part (`e`/`E`, optional sign, digits); when no
digit follows, nothing is consumed. -/
def parseExp (l : List Char) : Int × List Char :=
  match l with
  | e :: r =>
    if e = 'e' ∨ e = 'E' then
      let sg := signSplit r
      let d := takeDigits sg.2 0 0
      if d.2.1 = 0 then (0, l)
      else (if sg.1 then -(d.1 : Int) else (d.1 : Int), d.2.2)
    else (0, l)
  | [] => (0, [])

/-- An exact decimal value `num / 10 ^ exp`.  The float value of a decimal
subject sequence is carried in this form so that every arithmetic step of
`parse_duration` is exact (the embedding replaces IEEE binary rounding by
exact arithmetic). -/
structure DecVal where
  num : Int
  exp : Nat
deriving DecidableEq, Repr

/-- The rational value denoted by a `DecVal`. -/
def DecVal.toRat (v : DecVal) : Rat :=
  (v.num : Rat) / (10 : Rat) ^ v.exp

/-- Multiplication of the carried value by a natural constant (`value * 100`). -/
def DecVal.scale (k : Nat) (v : DecVal) : DecVal :=
  ⟨v.num * (k : Int), v.exp⟩

/-- Division of the carried value by ten (`value / 10`). -/
def DecVal.div10 (v : DecVal) : DecVal :=
  ⟨v.num, v.exp + 1⟩

/-- C cast of the carried floating value to `int`: truncation toward zero. -/
def DecVal.trunc (v : DecVal) : Int :=
  v.num.tdiv ((10 : Int) ^ v.exp)

/-- `MIN(hi, value)` of blink.c on the floating value, with an integer bound. -/
def DecVal.minI (hi : Int) (v : DecVal) : DecVal :=
  if hi * (10 : Int) ^ v.exp < v.num then ⟨hi * (10 : Int) ^ v.exp, v.exp⟩ else v

/-- `MAX(lo, value)` of blink.c on the floating value, with an integer bound. -/
def DecVal.maxI (lo : Int) (v : DecVal) : DecVal :=
  if v.num < lo * (10 : Int) ^ v.exp then ⟨lo * (10 : Int) ^ v.exp, v.exp⟩ else v

/-- `CLAMP(value, lo, hi) = MAX(lo, MIN(hi, value))` of blink.c on the
floating value. -/
def DecVal.clamp (v : DecVal) (lo hi : Int) : DecVal :=
  DecVal.maxI lo (DecVal.minI hi v)

/-- Assemble the value of a decimal subject sequence: integer part,
fractional digits, decimal exponent and sign. -/
def mkVal (neg : Bool) (ip fv nf : Nat) (ex : Int) : DecVal :=
  let mag : DecVal :=
    if 0 ≤ ex then ⟨((ip * 10 ^ nf + fv : Nat) : Int) * 10 ^ ex.toNat, nf⟩
    else ⟨((ip * 10 ^ nf + fv : Nat) : Int), nf + (-ex).toNat⟩
  if neg then ⟨-mag.num, mag.exp⟩ else mag

/-- Model of C `strtof(s, &end)` restricted to decimal subject sequences
(optional whitespace and sign, digits with an optional point and optional
exponent; the hexadecimal, infinity and NaN forms are not modelled), with
the value carried exactly.  Returns the value and the unconsumed suffix;
when no conversion is performed the value is `0` and the suffix is the whole
input, as with the C `end == nptr` convention. -/
def strtofCore (orig : List Char) : DecVal × List Char :=
  let s1 := orig.dropWhile isWSChar
  let sg := signSplit s1
  let d := takeDigits sg.2 0 0
  match d.2.2 with
  | '.' :: r =>
    let f := takeDigits r 0 0
    if d.2.1 + f.2.1 = 0 then (⟨0, 0⟩, orig)
    else
      let ex := parseExp f.2.2
      (mkVal sg.1 d.1 f.1 f.2.1 ex.1, ex.2)
  | rest =>
    if d.2.1 = 0 then (⟨0, 0⟩, orig)
    else
      let ex := parseExp rest
      (mkVal sg.1 d.1 0 0 ex.1, ex.2)

/-- String-level wrapper for `strtofCore`. -/
def strtofModel (s : String) : DecVal × String :=
  let vr := strtofCore s.data
  (vr.1, String.mk vr.2)

/-- C cast of a rational floating value to `int` (truncation toward zero),
used to state specifications at the rational level. -/
def ratTrunc (q : Rat) : Int :=
  if 0 ≤ q then ⌊q⌋ else ⌈q⌉

/-- `DURATION_MAX` of blink.c. -/
def DURATION_MAX : Nat := 0xffff

/-- Model of `parse_duration` from blink.c: `strtof`, then
`CLAMP((int) value, -1, DURATION_MAX)` for a suffix-free token,
`CLAMP(value * 100, ...)` for suffix `s` and `CLAMP(value / 10, ...)` for
suffix `ms` (both computed on the floating value and truncated by the
implicit conversion of the return statement), and `-1` otherwise.
`CLAMP(v, lo, hi)` is `MAX(lo, MIN(hi, v))`. -/
def parse_duration (duration : String) : Int :=
  let vr := strtofModel duration
  if duration ≠ "" ∧ vr.2 = "" then
    max (-1) (min 65535 vr.1.trunc)
  else if vr.2 = "s" then
    ((vr.1.scale 100).clamp (-1) 65535).trunc
  else if vr.2 = "ms" then
    (vr.1.div10.clamp (-1) 65535).trunc
  else -1

/-- Model of C `atoi`: whitespace, optional sign, decimal digits; `0` when no
digit is found.  (C leaves overflow undefined; the model is exact.) -/
def atoi (s : String) : Int :=
  let s1 := s.data.dropWhile isWSChar
  let sg := signSplit s1
  let d := takeDigits sg.2 0 0
  if sg.1 then -(d.1 : Int) else (d.1 : Int)

/-- The `commands[]` table of blink.c: command character and declared
argument count (usage and description strings are presentation only). -/
def commands : List (Char × Nat) :=
  [('c', 2), ('D', 2), ('n', 1), ('p', 2), ('P', 3)]

/-- The argument-count loop of `main`: an error is raised iff some table
entry matches the command character and the remaining-argument count differs
from its declared arity. -/
def arityOk (cmd : Char) (argr : Nat) : Bool :=
  commands.all (fun p => (p.1 != cmd) || (argr == p.2))

/-- One error message per `error(...)` exit path of the command dispatch. -/
inductive ErrMsg where
  | noCommand
  | usage (cmd : Char)
  | invalidPosition (p : Int)
  | invalidDuration
  | unknownCommand (c : Char)
deriving DecidableEq, Repr

/-- Outcome of a run: the exit status, the 9-byte report written to the
output stream (`none` when nothing is written), and the error message. -/
structure RunResult where
  exit : Nat
  report : Option (List Nat)
  err : Option ErrMsg
deriving DecidableEq, Repr

/-- The zero-initialized buffer `{ 1, 0, ... }` after `buf[1] = cmd`. -/
def skeleton (cmd : Char) : List Nat :=
  [1, cmd.toNat, 0, 0, 0, 0, 0, 0, 0]

/-- `buf[7] = position` (the `P` case before falling through). -/
def encPosition (p : Nat) (buf : List Nat) : List Nat :=
  buf.set 7 p

/-- `buf[5] = duration >> 8; buf[6] = duration & 0xff` (the `c` case). -/
def encDuration (d : Nat) (buf : List Nat) : List Nat :=
  (buf.set 5 (d >>> 8)).set 6 (d &&& 0xff)

/-- `buf[2] = R(rgb); buf[3] = G(rgb); buf[4] = B(rgb)` (the `n` case). -/
def encColor (rgb : Int) (buf : List Nat) : List Nat :=
  ((buf.set 2 (R rgb)).set 3 (G rgb)).set 4 (B rgb)

/-- `!!play` stored into a byte. -/
def boolByte (play : Int) : Nat :=
  if play ≠ 0 then 1 else 0

/-- Successful end of `main`: the buffer is written and the process exits 0
(a full 9-byte write is assumed; a short write is an I/O condition outside
this model). -/
def emit (buf : List Nat) : RunResult :=
  ⟨0, some buf, none⟩

/-- The `n` tail of the switch (also reached from `c` and `P` by
fall-through): resolve the color and emit.  Note that blink.c does not test
`parse_color`'s `-1` sentinel, so the channel bytes are taken from the
two's-complement view of whatever value was returned. -/
def setStep (fields : List String) (buf : List Nat) : RunResult :=
  let rgb := parse_color (fields.getD 0 "")
  emit (encColor rgb buf)

/-- The `c` portion of the switch (also reached from `P`): parse the
duration, abort on a negative result, else store it and fall through. -/
def fadeStep (fields : List String) (buf : List Nat) : RunResult :=
  let duration := parse_duration (fields.getD 1 "")
  if duration < 0 then ⟨1, none, some ErrMsg.invalidDuration⟩
  else setStep fields (encDuration duration.toNat buf)

/-- The command switch of `main`, with the `P → c → n` fall-through chain
rendered as nested calls. -/
def dispatch (cmd : Char) (fields : List String) : RunResult :=
  let buf := skeleton cmd
  if cmd = 'P' then
    let position := atoi (fields.getD 2 "")
    if position < 0 ∨ 11 < position then ⟨1, none, some (ErrMsg.invalidPosition position)⟩
    else fadeStep fields (encPosition position.toNat buf)
  else if cmd = 'c' then
    fadeStep fields buf
  else if cmd = 'n' then
    setStep fields buf
  else if cmd = 'p' then
    let play := atoi (fields.getD 0 "")
    let position := atoi (fields.getD 1 "")
    emit ((buf.set 2 (boolByte play)).set 3 (max 0 (min 11 position)).toNat)
  else if cmd = 'D' then
    let play := atoi (fields.getD 0 "")
    let duration := parse_duration (fields.getD 1 "")
    if duration < 0 then ⟨1, none, some ErrMsg.invalidDuration⟩
    else emit (((buf.set 2 (boolByte play)).set 3 (duration.toNat >>> 8)).set 4 (duration.toNat &&& 0xff))
  else ⟨1, none, some (ErrMsg.unknownCommand cmd)⟩

/-- Model of `main` from the command-dispatch point (the positional
arguments left after option processing): reject a missing or non-single-char
command word, validate the argument count against the table, then dispatch. -/
def blinkRun (args : List String) : RunResult :=
  match args with
  | [] => ⟨1, none, some ErrMsg.noCommand⟩
  | a0 :: fields =>
    match a0.data with
    | [cmd] =>
      if arityOk cmd fields.length then dispatch cmd fields
      else ⟨1, none, some (ErrMsg.usage cmd)⟩
    | _ => ⟨1, none, some ErrMsg.noCommand⟩

/-- Numeric interpretation of a string of hexadecimal digits (base 16,
most significant first). -/
def hexVal (l : List Char) : Nat :=
  l.foldl (fun a c => a * 16 + hexDigitVal c) 0

/-- A string containing no decimal digit at all (one way for a token to be
non-numeric for `atoi`). -/
def hasNoDigit (s : String) : Bool :=
  s.data.all (fun c => !(isDigitC c))

/-- Truncating the `CLAMP` of a floating value at the integer bounds -1 and
65535 agrees with clamping the truncation: the bounds are integers, so the
two orders cannot disagree. -/
theorem DecVal.trunc_clamp (v : DecVal) :
    (v.clamp (-1) 65535).trunc = max (-1) (min 65535 v.trunc) := by
  obtain ⟨n, e⟩ := v
  have hd : (0 : Int) < 10 ^ e := pow_pos (by norm_num) e
  have hde : (10 : Int) ^ e ≠ 0 := ne_of_gt hd
  simp only [DecVal.clamp, DecVal.minI, DecVal.maxI, DecVal.trunc]
  by_cases h1 : 65535 * (10 : Int) ^ e < n
  · rw [if_pos h1]
    simp only
    rw [if_neg (by nlinarith)]
    simp only
    rw [Int.mul_tdiv_cancel _ hde]
    have hn : (0 : Int) ≤ n := le_trans (by positivity) (le_of_lt h1)
    rw [Int.tdiv_eq_ediv hn (le_of_lt hd)]
    have h65 : 65535 ≤ n / 10 ^ e := (Int.le_ediv_iff_mul_le hd).mpr (le_of_lt h1)
    omega
  · rw [if_neg h1]
    simp only
    by_cases h2 : n < -1 * (10 : Int) ^ e
    · rw [if_pos h2]
      simp only
      rw [Int.mul_tdiv_cancel _ hde]
      have hn : (0 : Int) ≤ -n := by nlinarith
      have ht : n.tdiv (10 ^ e) = -((-n).tdiv (10 ^ e)) := by
        rw [← Int.neg_tdiv, neg_neg]
      rw [ht, Int.tdiv_eq_ediv hn (le_of_lt hd)]
      have h1' : 1 ≤ (-n) / 10 ^ e := (Int.le_ediv_iff_mul_le hd).mpr (by nlinarith)
      omega
    · rw [if_neg h2]
      simp only
      rcases le_or_lt 0 n with hn | hn
      · rw [Int.tdiv_eq_ediv hn (le_of_lt hd)]
        have hlo : 0 ≤ n / 10 ^ e := Int.ediv_nonneg hn (le_of_lt hd)
        have hhi : ¬ (65536 ≤ n / 10 ^ e) := by
          rw [Int.le_ediv_iff_mul_le hd]
          nlinarith
        omega
      · have hn' : (0 : Int) ≤ -n := by omega
        have ht : n.tdiv (10 ^ e) = -((-n).tdiv (10 ^ e)) := by
          rw [← Int.neg_tdiv, neg_neg]
        rw [ht, Int.tdiv_eq_ediv hn' (le_of_lt hd)]
        have hlo : 0 ≤ (-n) / 10 ^ e := Int.ediv_nonneg hn' (le_of_lt hd)
        have hhi : ¬ (2 ≤ (-n) / 10 ^ e) := by
          rw [Int.le_ediv_iff_mul_le hd]
          nlinarith
        omega

/-- Cast helper: `10 ^ e` as a rational is the cast of the natural power. -/
theorem DecVal.pow_cast_aux (e : Nat) : ((10 : Rat)) ^ e = ((10 ^ e : Nat) : Rat) := by
  push_cast
  ring

/-- The exact truncation of a `DecVal` is the truncation of the rational
value it denotes. -/
theorem DecVal.trunc_toRat (v : DecVal) : v.trunc = ratTrunc v.toRat := by
  obtain ⟨n, e⟩ := v
  have hdQ : (0 : Rat) < (10 : Rat) ^ e := by positivity
  simp only [DecVal.trunc, DecVal.toRat, ratTrunc]
  rcases le_or_lt 0 n with hn | hn
  · rw [if_pos (by positivity)]
    rw [DecVal.pow_cast_aux, Rat.floor_intCast_div_natCast,
      Int.tdiv_eq_ediv hn (by positivity)]
    norm_cast
  · rw [if_neg (by
      refine not_le.mpr (div_neg_of_neg_of_pos ?_ hdQ)
      exact_mod_cast hn)]
    have hneg : ((n : Rat)) / (10 : Rat) ^ e = -(((-n : Int) : Rat) / ((10 ^ e : Nat) : Rat)) := by
      rw [← DecVal.pow_cast_aux]
      push_cast
      ring
    rw [hneg, Int.ceil_neg, Rat.floor_intCast_div_natCast]
    have ht : n.tdiv ((10 : Int) ^ e) = -((-n).tdiv ((10 : Int) ^ e)) := by
      rw [← Int.neg_tdiv, neg_neg]
    rw [ht, Int.tdiv_eq_ediv (by omega) (by positivity)]
    norm_cast

/-- `scale` denotes multiplication of the rational value. -/
theorem DecVal.scale_toRat (k : Nat) (v : DecVal) :
    (v.scale k).toRat = v.toRat * k := by
  obtain ⟨n, e⟩ := v
  simp only [DecVal.scale, DecVal.toRat]
  push_cast
  ring

/-- `div10` denotes division of the rational value by ten. -/
theorem DecVal.div10_toRat (v : DecVal) : v.div10.toRat = v.toRat / 10 := by
  obtain ⟨n, e⟩ := v
  simp only [DecVal.div10, DecVal.toRat]
  rw [pow_succ]
  ring

/-- C1.  An invalid color token does not abort the run: `main` never tests
`parse_color`'s `-1` sentinel, so `blink n qq` writes a report whose channel
bytes are the two's-complement bytes of `-1` (255, 255, 255) and exits 0,
while `parse_color` itself did fail on the token. -/
theorem invalid_color_writes_report :
    parse_color "qq" = -1 ∧
    blinkRun ["n", "qq"] =
      ⟨0, some [1, 110, 255, 255, 255, 0, 0, 0, 0], none⟩ := by
  constructor <;> decide

/-- C2 (counterexample).  `parse_duration "100000ms"` is 10000, not the
claimed clamped ceiling 65535: 100000 milliseconds are 10000 hundredths of a
second, inside the representable range. -/
theorem parse_duration_100000ms_not_clamped :
    parse_duration "100000ms" = 10000 ∧ parse_duration "100000ms" ≠ 65535 := by
  constructor <;> decide

/-- C2 (amended).  `parse_duration "100000ms"` returns 10000 (the token's
value divided by 10); the result lies inside [-1, 65535], so no clamping
occurs. -/
theorem parse_duration_100000ms :
    parse_duration "100000ms" = 10000 ∧
    (-1 : Int) ≤ 10000 ∧ (10000 : Int) ≤ 65535 := by
  constructor <;> decide

/-- C3 (counterexample).  The token `"s"` has no parseable numeric prefix
(the float parse consumes nothing and leaves the whole token as suffix), yet
`parse_duration` returns 0 rather than the claimed -1: the suffix comparison
against `"s"` still succeeds, with the unconverted value 0. -/
theorem parse_duration_bare_suffix :
    (strtofModel "s").2 = "s" ∧ parse_duration "s" = 0 ∧
    parse_duration "s" ≠ -1 := by
  refine ⟨by decide, by decide, by decide⟩

/-- C3 (amended).  Writing `(value, suffix)` for the result of the float
parse of a token (when nothing is parseable the value is 0 and the suffix is
the whole token): a suffix-free nonempty token yields the value truncated
toward zero and clamped to [-1, 65535]; suffix exactly `s` yields the value
times 100, truncated and clamped the same way; suffix exactly `ms` yields
the value divided by 10, truncated (fractional hundredths dropped, not
rounded) and clamped; any other suffix, and the empty token, yield -1.  In
particular a token with no parseable numeric prefix returns -1 unless the
whole token is exactly `s` or `ms`, which parse as value 0. -/
theorem parse_duration_spec (t : String) :
    (t ≠ "" ∧ (strtofModel t).2 = "" →
      parse_duration t = max (-1) (min 65535 (ratTrunc (strtofModel t).1.toRat))) ∧
    ((strtofModel t).2 = "s" →
      parse_duration t = max (-1) (min 65535 (ratTrunc ((strtofModel t).1.toRat * 100)))) ∧
    ((strtofModel t).2 = "ms" →
      parse_duration t = max (-1) (min 65535 (ratTrunc ((strtofModel t).1.toRat / 10)))) ∧
    ((strtofModel t).2 ≠ "" ∧ (strtofModel t).2 ≠ "s" ∧ (strtofModel t).2 ≠ "ms" →
      parse_duration t = -1) ∧
    (t = "" → parse_duration t = -1) := by
  refine ⟨?_, ?_, ?_, ?_, ?_⟩
  · intro h
    simp only [parse_duration]
    rw [if_pos h, DecVal.trunc_toRat]
  · intro h
    simp only [parse_duration]
    rw [if_neg (by simp [h]), if_pos h, DecVal.trunc_clamp, DecVal.trunc_toRat,
      DecVal.scale_toRat]
    norm_num
  · intro h
    simp only [parse_duration]
    rw [if_neg (by simp [h]), if_neg (by simp [h]), if_pos h, DecVal.trunc_clamp,
      DecVal.trunc_toRat, DecVal.div10_toRat]
  · intro h
    simp only [parse_duration]
    rw [if_neg (by simp [h.1]), if_neg h.2.1, if_neg h.2.2]
  · intro h
    subst h
    decide

/-- Witness for C3: the `s`-suffix case applied at the token `2s`, whose
parsed value is 2, so the result is 200. -/
theorem parse_duration_spec_witness :
    parse_duration "2s" = max (-1) (min 65535 (ratTrunc ((strtofModel "2s").1.toRat * 100))) ∧
    parse_duration "2s" = 200 :=
  ⟨(parse_duration_spec "2s").2.1 (by decide), by decide⟩

/-- C5.  `blink P green 2s 2` writes position 2 into byte 7, duration 200
split big-endian across bytes 5 and 6, and channels (0, 255, 0) into bytes
2 to 4; the emitted buffer is exactly the fall-through composition of the
position step, then the duration step, then the color step, on the shared
skeleton. -/
theorem pattern_green_encoding :
    blinkRun ["P", "green", "2s", "2"] =
      ⟨0, some (encColor 0x00FF00 (encDuration 200 (encPosition 2 (skeleton 'P')))), none⟩ ∧
    encColor 0x00FF00 (encDuration 200 (encPosition 2 (skeleton 'P'))) =
      [1, 80, 0, 255, 0, 0, 200, 2, 0] := by
  constructor <;> decide

/-- C6.  For every table command, an argument count differing from the
declared arity is rejected with exit status 1, no report, and that command's
usage message, whatever the field values are (so before any color or
duration parsing); in particular `blink c red` fails this way. -/
theorem arity_mismatch_errors :
    (∀ c n, (c, n) ∈ commands → ∀ fields : List String,
      fields.length ≠ n →
      blinkRun (String.mk [c] :: fields) = ⟨1, none, some (ErrMsg.usage c)⟩) ∧
    blinkRun ["c", "red"] = ⟨1, none, some (ErrMsg.usage 'c')⟩ := by
  constructor
  · intro c n hmem fields hlen
    fin_cases hmem <;>
      simp [blinkRun, arityOk, commands, hlen]
  · decide

/-- Witness for C6: command `D` (arity 2) invoked with one field. -/
theorem arity_mismatch_errors_witness :
    blinkRun [String.mk ['D'], "1"] = ⟨1, none, some (ErrMsg.usage 'D')⟩ :=
  arity_mismatch_errors.1 'D' 2 (by decide) ["1"] (by decide)

/-- C7.  `blink p A B` always succeeds: byte 2 is 1 exactly when the integer
parse of A is nonzero, byte 3 is the integer parse of B clamped to [0, 11]
(an out-of-range position is silently clamped, never an error), and a token
without any digit parses as 0. -/
theorem play_pause_encoding :
    (∀ a b : String, blinkRun ["p", a, b] =
      ⟨0, some [1, 112, (if atoi a ≠ 0 then 1 else 0),
        (max 0 (min 11 (atoi b))).toNat, 0, 0, 0, 0, 0], none⟩) ∧
    (∀ s : String, hasNoDigit s = true → atoi s = 0) := by
  constructor
  · intro a b
    have h1 : arityOk 'p' 2 = true := by decide
    simp [blinkRun, dispatch, skeleton, emit, boolByte, h1]
  · intro s hs
    simp only [hasNoDigit, List.all_eq_true] at hs
    simp only [atoi]
    have hsub : ∀ c ∈ s.data.dropWhile isWSChar, isDigitC c = false := by
      intro c hc
      have hmem : c ∈ s.data := (List.dropWhile_sublist _).subset hc
      simpa using hs c hmem
    cases hdw : s.data.dropWhile isWSChar with
    | nil => simp [signSplit, takeDigits]
    | cons c cs =>
      rw [hdw] at hsub
      have htail : ∀ c' ∈ cs, isDigitC c' = false := fun c' hc' =>
        hsub c' (List.mem_cons_of_mem _ hc')
      have hdz : ∀ l : List Char, (∀ c' ∈ l, isDigitC c' = false) →
          (takeDigits l 0 0).1 = 0 := by
        intro l hl
        cases l with
        | nil => rfl
        | cons x xs =>
          simp [takeDigits, hl x (List.mem_cons_self x xs)]
      simp only [signSplit]
      by_cases hcm : c = '-'
      · simp [hcm, hdz cs htail]
      · by_cases hcp : c = '+'
        · simp [hcm, hcp, hdz cs htail]
        · simp [hcm, hcp, hdz (c :: cs) hsub]

/-- Witness for C7: a token with no digits parses as 0, and a concrete
play invocation with an out-of-range position is clamped to 11. -/
theorem play_pause_encoding_witness :
    atoi "zz" = 0 ∧
    blinkRun ["p", "1", "20"] =
      ⟨0, some [1, 112, (if atoi "1" ≠ 0 then 1 else 0),
        (max 0 (min 11 (atoi "20"))).toNat, 0, 0, 0, 0, 0], none⟩ :=
  ⟨play_pause_encoding.2 "zz" (by decide), play_pause_encoding.1 "1" "20"⟩

/-- C8.  Value errors are atomic: when `parse_duration` is negative for
`c`, `P` or `D`, or the `P` position is outside [0, 11], the run exits with
status 1 and writes nothing. -/
theorem value_error_atomicity :
    (∀ col dur : String, parse_duration dur < 0 →
      blinkRun ["c", col, dur] = ⟨1, none, some ErrMsg.invalidDuration⟩) ∧
    (∀ col dur pos : String, (atoi pos < 0 ∨ 11 < atoi pos) →
      blinkRun ["P", col, dur, pos] = ⟨1, none, some (ErrMsg.invalidPosition (atoi pos))⟩) ∧
    (∀ col dur pos : String, 0 ≤ atoi pos → atoi pos ≤ 11 → parse_duration dur < 0 →
      blinkRun ["P", col, dur, pos] = ⟨1, none, some ErrMsg.invalidDuration⟩) ∧
    (∀ flag dur : String, parse_duration dur < 0 →
      blinkRun ["D", flag, dur] = ⟨1, none, some ErrMsg.invalidDuration⟩) := by
  refine ⟨?_, ?_, ?_, ?_⟩
  · intro col dur hdur
    simp [blinkRun, dispatch, fadeStep, hdur, arityOk, commands]
  · intro col dur pos hpos
    simp [blinkRun, dispatch, hpos, arityOk, commands]
  · intro col dur pos hlo hhi hdur
    have hpos : ¬ (atoi pos < 0 ∨ 11 < atoi pos) := by omega
    simp [blinkRun, dispatch, fadeStep, hpos, hdur, arityOk, commands]
  · intro flag dur hdur
    simp [blinkRun, dispatch, hdur, arityOk, commands]

/-- Witness for C8: `blink c red abc` has an unparseable duration and
writes nothing. -/
theorem value_error_atomicity_witness :
    blinkRun ["c", "red", "abc"] = ⟨1, none, some ErrMsg.invalidDuration⟩ :=
  value_error_atomicity.1 "red" "abc" (by decide)

/-- Characters cannot be both hexadecimal digits and non-digits. -/
theorem hex_ne_of {c x : Char} (h : isCHexDigit c = true) (hx : isCHexDigit x = false) :
    c ≠ x := by
  intro he
  rw [he, hx] at h
  exact Bool.noConfusion h

/-- A hexadecimal digit is not C whitespace. -/
theorem ws_hex_false {c : Char} (h : isCHexDigit c = true) : isWSChar c = false := by
  cases hw : isWSChar c
  · rfl
  · exfalso
    simp only [isWSChar, Bool.or_eq_true, beq_iff_eq] at hw
    have hc : c = ' ' ∨ c = '\t' ∨ c = '\n' ∨ c = '\x0B' ∨ c = '\x0C' ∨ c = '\r' := by
      tauto
    rcases hc with h1 | h1 | h1 | h1 | h1 | h1 <;> (subst h1; exact absurd h (by decide))

/-- The value of a hexadecimal digit is below 16. -/
theorem hexDigitVal_lt {c : Char} (h : isCHexDigit c = true) : hexDigitVal c < 16 := by
  simp only [isCHexDigit, isDigitC, Bool.or_eq_true, decide_eq_true_eq] at h
  simp only [hexDigitVal]
  split_ifs <;> omega

/-- `takeHex` consumes a list of hexadecimal digits completely. -/
theorem takeHex_all (l : List Char) (acc n : Nat)
    (hl : ∀ c ∈ l, isCHexDigit c = true) :
    takeHex l acc n =
      (l.foldl (fun a c => a * 16 + hexDigitVal c) acc, n + l.length, []) := by
  induction l generalizing acc n with
  | nil => simp [takeHex]
  | cons c cs ih =>
    have hc : isCHexDigit c = true := hl c (List.mem_cons_self c cs)
    simp only [takeHex, hc, if_pos]
    rw [ih _ _ (fun c' h' => hl c' (List.mem_cons_of_mem _ h'))]
    simp only [List.foldl_cons, List.length_cons]
    refine congrArg _ ?_
    refine congrArg (fun k => (k, ([] : List Char))) ?_
    omega

/-- The hexadecimal accumulator is bounded by `16 ^ length`. -/
theorem hexfold_lt (l : List Char) (acc : Nat)
    (hl : ∀ c ∈ l, isCHexDigit c = true) :
    l.foldl (fun a c => a * 16 + hexDigitVal c) acc < (acc + 1) * 16 ^ l.length := by
  induction l generalizing acc with
  | nil => simp
  | cons c cs ih =>
    have hc : hexDigitVal c < 16 := hexDigitVal_lt (hl c (List.mem_cons_self c cs))
    have h1 := ih (acc * 16 + hexDigitVal c)
      (fun c' h' => hl c' (List.mem_cons_of_mem _ h'))
    simp only [List.foldl_cons, List.length_cons]
    calc List.foldl (fun a c => a * 16 + hexDigitVal c) (acc * 16 + hexDigitVal c) cs
        < (acc * 16 + hexDigitVal c + 1) * 16 ^ cs.length := h1
      _ ≤ (acc + 1) * 16 ^ (cs.length + 1) := by
          rw [pow_succ]
          nlinarith [pow_pos (show 0 < 16 by norm_num) cs.length]

/-- The registry lookup misses when no table name equals the token. -/
theorem lookupColor_eq_none {s : String} (h : ∀ p ∈ colors, p.1 ≠ s) :
    lookupColor s = none := by
  have h1 := h ("blue", 0x0000FF) (by decide)
  have h2 := h ("cyan", 0x00FFFF) (by decide)
  have h3 := h ("green", 0x00FF00) (by decide)
  have h4 := h ("purple", 0xFF00FF) (by decide)
  have h5 := h ("red", 0xFF0000) (by decide)
  have h6 := h ("white", 0xFFFFFF) (by decide)
  have h7 := h ("yellow", 0xFFFF00) (by decide)
  simp only [lookupColor, colors, colorsFind]
  rw [if_neg h1, if_neg h2, if_neg h3, if_neg h4, if_neg h5, if_neg h6, if_neg h7]

/-- Every registry name contains a non-hexadecimal character, so a token of
hexadecimal digits never hits the registry. -/
theorem lookupColor_none_of_hex {s : String}
    (hs : ∀ c ∈ s.data, isCHexDigit c = true) : lookupColor s = none := by
  refine lookupColor_eq_none ?_
  intro p hp he
  subst he
  fin_cases hp <;> exact absurd hs (by decide)

/-- `strtoul` leaves a nonempty suffix on every registry name, so a token it
consumes completely never hits the registry. -/
theorem lookupColor_none_of_consumed {s : String}
    (h2 : (strtoul16 s).2 = "") (hne : s ≠ "") : lookupColor s = none := by
  refine lookupColor_eq_none ?_
  intro p hp he
  subst he
  fin_cases hp <;> exact absurd h2 (by decide)

/-- `strtoul(_, _, 16)` on a nonempty all-hexadecimal token converts the
whole token. -/
theorem strtoul16Core_all_hex {l : List Char} (hne : l ≠ [])
    (hl : ∀ c ∈ l, isCHexDigit c = true) (hbound : hexVal l ≤ ULONG_MAX) :
    strtoul16Core l = (hexVal l, []) := by
  obtain ⟨c, cs, rfl⟩ : ∃ c cs, l = c :: cs := by
    cases l with
    | nil => exact absurd rfl hne
    | cons c cs => exact ⟨c, cs, rfl⟩
  have hc : isCHexDigit c = true := hl c (List.mem_cons_self c cs)
  have hdw : (c :: cs).dropWhile isWSChar = c :: cs := by
    simp [List.dropWhile_cons, ws_hex_false hc]
  have hsign : signSplit (c :: cs) = (false, c :: cs) := by
    simp [signSplit, hex_ne_of hc (by decide : isCHexDigit '-' = false),
      hex_ne_of hc (by decide : isCHexDigit '+' = false)]
  have hpfx : hexPrefixSplit (c :: cs) = c :: cs := by
    cases cs with
    | nil => rfl
    | cons c1 cs1 =>
      have hc1 : isCHexDigit c1 = true := hl c1 (by simp)
      simp only [hexPrefixSplit]
      rw [if_neg]
      rintro ⟨-, hx, -⟩
      rcases hx with hx | hx <;>
        exact absurd hx (hex_ne_of hc1 (by decide))
  simp only [strtoul16Core, hdw, hsign, hpfx]
  rw [takeHex_all _ 0 0 hl]
  simp only [hexVal] at hbound ⊢
  have hlen : (c :: cs).length ≠ 0 := by simp
  simp only [Nat.zero_add, hlen, if_neg, not_lt.mpr hbound]
  simp [Nat.not_lt.mpr hbound]

/-- A string built from a nonempty character list is nonempty. -/
theorem string_mk_ne_empty {l : List Char} (h : l ≠ []) : String.mk l ≠ "" := by
  intro he
  exact h (congrArg String.data he)

/-- C4 (counterexample).  The registry name `blue` begins with the
hexadecimal digit `b`, so `strtoul` leaves the non-hex trailing characters
`lue` unconsumed, yet `parse_color` succeeds on it through the registry
rather than failing as the claim's trailing-character clause demands. -/
theorem parse_color_blue :
    (strtoul16 "blue").2 = "lue" ∧ parse_color "blue" = 0x0000FF ∧
    parse_color "blue" ≠ -1 := by
  refine ⟨by decide, by decide, by decide⟩

/-- C4 (amended).  Registry names resolve to their documented 24-bit values
and the R/G/B decomposition reassembles them; nonempty strings of at most 6
hexadecimal digits resolve to their base-16 value; and a token that is NOT a
registry name fails when its `strtoul` value exceeds 0xFFFFFF, when
unconsumed trailing characters remain, or when it is empty. -/
theorem parse_color_spec :
    (∀ p ∈ colors, parse_color p.1 = (p.2 : Int) ∧
      ((R (p.2 : Int)) <<< 16) ||| ((G (p.2 : Int)) <<< 8) ||| (B (p.2 : Int)) = p.2) ∧
    (∀ l : List Char, l ≠ [] → l.length ≤ 6 → (∀ c ∈ l, isCHexDigit c = true) →
      parse_color (String.mk l) = (hexVal l : Int)) ∧
    (∀ s : String, lookupColor s = none → 0xFFFFFF < (strtoul16 s).1 →
      parse_color s = -1) ∧
    (∀ s : String, lookupColor s = none → (strtoul16 s).2 ≠ "" → parse_color s = -1) ∧
    parse_color "" = -1 := by
  refine ⟨by decide, ?_, ?_, ?_, by decide⟩
  · intro l hne hlen hl
    have hbd : hexVal l < 16 ^ l.length := by
      have := hexfold_lt l 0 hl
      simpa [hexVal] using this
    have hb6 : hexVal l < 16 ^ 6 :=
      lt_of_lt_of_le hbd (Nat.pow_le_pow_right (by norm_num) hlen)
    have hcore : strtoul16Core l = (hexVal l, []) := by
      refine strtoul16Core_all_hex hne hl ?_
      have : (16 : Nat) ^ 6 ≤ ULONG_MAX := by decide
      omega
    have hlook : lookupColor (String.mk l) = none := lookupColor_none_of_hex hl
    simp only [parse_color, hlook, strtoul16, hcore]
    rw [if_neg (by omega)]
    rw [if_pos ⟨string_mk_ne_empty hne, trivial⟩]
  · intro s hlook hbig
    simp only [parse_color, hlook]
    rw [if_pos hbig]
  · intro s hlook hrest
    simp only [parse_color, hlook]
    by_cases hbig : 0xFFFFFF < (strtoul16 s).1
    · rw [if_pos hbig]
    · rw [if_neg hbig, if_neg (fun hc => hrest hc.2)]

/-- Witness for C4: the hex token `a1` resolves to 161, the registry name
`red` to 0xFF0000, and the 7-digit token `1234567` (value above 0xFFFFFF)
fails. -/
theorem parse_color_spec_witness :
    parse_color (String.mk ['a', '1']) = 161 ∧
    parse_color "red" = 0xFF0000 ∧
    parse_color "1234567" = -1 := by
  refine ⟨?_, ?_, ?_⟩
  · have h := parse_color_spec.2.1 ['a', '1'] (by decide) (by decide) (by decide)
    rw [h]
    decide
  · exact (parse_color_spec.1 ("red", 0xFF0000) (by decide)).1
  · exact parse_color_spec.2.2.1 "1234567" (by decide) (by decide)

/-- C10.  `parse_color` accepts every token that `strtoul(_, _, 16)`
consumes completely — so also tokens with leading whitespace, a sign, or a
`0x`/`0X` prefix — whenever the resulting value is at most 0xFFFFFF; in
particular `0xFF` resolves to 0xFF although it is not a pure hex-digit
string. -/
theorem parse_color_strtoul_lenient :
    (∀ s : String, s ≠ "" → (strtoul16 s).2 = "" → (strtoul16 s).1 ≤ 0xFFFFFF →
      parse_color s = ((strtoul16 s).1 : Int)) ∧
    parse_color "0xFF" = 0xFF ∧
    ¬ (∀ c ∈ "0xFF".data, isCHexDigit c = true) := by
  refine ⟨?_, by decide, by decide⟩
  intro s hne hrest hle
  have hlook : lookupColor s = none := lookupColor_none_of_consumed hrest hne
  simp only [parse_color, hlook]
  rw [if_neg (not_lt.mpr hle), if_pos ⟨hne, hrest⟩]

/-- Witness for C10: the token with leading whitespace and a plus sign
resolves through `strtoul` to 255. -/
theorem parse_color_strtoul_lenient_witness :
    parse_color " +ff" = ((strtoul16 " +ff").1 : Int) ∧ (strtoul16 " +ff").1 = 255 :=
  ⟨parse_color_strtoul_lenient.1 " +ff" (by decide) (by decide) (by decide), by decide⟩

/-- C9.  Every report a run emits, on any argument list and any command, is
exactly 9 bytes, with byte 0 the constant report id 1, byte 8 the reserved
0, and byte 1 the (single) command character of the first argument. -/
theorem report_shape (args : List String) (r : List Nat)
    (h : (blinkRun args).report = some r) :
    r.length = 9 ∧ r.getD 0 0 = 1 ∧ r.getD 8 0 = 0 ∧
    ∃ c rest, args = String.mk [c] :: rest ∧ r.getD 1 0 = c.toNat := by
  cases args with
  | nil => simp [blinkRun] at h
  | cons a0 fields =>
    obtain ⟨l⟩ := a0
    cases l with
    | nil => simp [blinkRun] at h
    | cons c cs =>
      cases cs with
      | cons c2 cs2 => simp [blinkRun] at h
      | nil =>
        simp only [blinkRun] at h
        by_cases ha : arityOk c fields.length
        · rw [if_pos ha] at h
          simp only [dispatch] at h
          by_cases hP : c = 'P'
          · rw [if_pos hP] at h
            by_cases hpos : atoi (fields.getD 2 "") < 0 ∨ 11 < atoi (fields.getD 2 "")
            · rw [if_pos hpos] at h
              exact absurd h (by simp)
            · rw [if_neg hpos] at h
              simp only [fadeStep] at h
              by_cases hdur : parse_duration (fields.getD 1 "") < 0
              · rw [if_pos hdur] at h
                exact absurd h (by simp)
              · rw [if_neg hdur] at h
                simp only [setStep, emit] at h
                obtain rfl := (Option.some.inj h).symm
                exact ⟨rfl, rfl, rfl, c, fields, rfl, rfl⟩
          · rw [if_neg hP] at h
            by_cases hc : c = 'c'
            · rw [if_pos hc] at h
              simp only [fadeStep] at h
              by_cases hdur : parse_duration (fields.getD 1 "") < 0
              · rw [if_pos hdur] at h
                exact absurd h (by simp)
              · rw [if_neg hdur] at h
                simp only [setStep, emit] at h
                obtain rfl := (Option.some.inj h).symm
                exact ⟨rfl, rfl, rfl, c, fields, rfl, rfl⟩
            · rw [if_neg hc] at h
              by_cases hn : c = 'n'
              · rw [if_pos hn] at h
                simp only [setStep, emit] at h
                obtain rfl := (Option.some.inj h).symm
                exact ⟨rfl, rfl, rfl, c, fields, rfl, rfl⟩
              · rw [if_neg hn] at h
                by_cases hp : c = 'p'
                · rw [if_pos hp] at h
                  simp only [emit] at h
                  obtain rfl := (Option.some.inj h).symm
                  exact ⟨rfl, rfl, rfl, c, fields, rfl, rfl⟩
                · rw [if_neg hp] at h
                  by_cases hD : c = 'D'
                  · rw [if_pos hD] at h
                    by_cases hdur : parse_duration (fields.getD 1 "") < 0
                    · rw [if_pos hdur] at h
                      exact absurd h (by simp)
                    · rw [if_neg hdur] at h
                      simp only [emit] at h
                      obtain rfl := (Option.some.inj h).symm
                      exact ⟨rfl, rfl, rfl, c, fields, rfl, rfl⟩
                  · rw [if_neg hD] at h
                    exact absurd h (by simp)
        · rw [if_neg ha] at h
          exact absurd h (by simp)

/-- Witness for C9: the report of `blink n red`. -/
theorem report_shape_witness :
    [1, 110, 255, 0, 0, 0, 0, 0, 0].length = 9 ∧
    [1, 110, 255, 0, 0, 0, 0, 0, 0].getD 0 0 = 1 ∧
    [1, 110, 255, 0, 0, 0, 0, 0, 0].getD 8 0 = 0 ∧
    ∃ c rest, ["n", "red"] = String.mk [c] :: rest ∧
      [1, 110, 255, 0, 0, 0, 0, 0, 0].getD 1 0 = c.toNat :=
  report_shape ["n", "red"] [1, 110, 255, 0, 0, 0, 0, 0, 0] (by decide)

end Blink
